import Mathlib

/-!
Verification development for the music_library derived-view builder and
similarity scorer.  The definitions below are a shallow embedding of
 - backend/services/jobState.js            (job registry),
 - backend/controllers/derivedArtistsController.js
     (SORTS registry, bucketFor, startBuild backfill loop, getTop reader),
 - backend/controllers/vectorController.js (TTL cache, cosineSim, limits).
Timestamps are modelled as abstract Nat ticks; JS number values that are
always integers in the data model are modelled as Int/Nat.
-/

set_option linter.unusedVariables false
set_option maxRecDepth 4000

/-- Job status values from backend/services/jobState.js
(starting to building to done, error or canceled). -/
inductive JStatus
  | starting
  | building
  | done
  | error
  | canceled
  deriving DecidableEq, Repr

/-- A job record as created by createJob in backend/services/jobState.js.
The JS field named by is spelled by_ here (Lean keyword). -/
structure Job where
  id : String
  by_ : String
  status : JStatus
  inserted : Nat
  total : Nat
  startedAt : Nat
  finishedAt : Option Nat
  updatedAt : Nat
  error : Option String
  canceled : Bool
  deriving DecidableEq, Repr

/-- The fresh record built by createJob (random id generation abstracted
into the id argument). -/
def createJobRecord (id by_ : String) (t : Nat) : Job :=
  { id := id, by_ := by_, status := .starting, inserted := 0, total := 0,
    startedAt := t, finishedAt := none, updatedAt := t, error := none,
    canceled := false }

/-- A patch object passed to updateJob: a JS object literal carrying any
subset of the job fields; absent fields are none.  updatedAt is always
overwritten by updateJob itself, so it is not part of the patch. -/
structure JobPatch where
  id : Option String := none
  by_ : Option String := none
  status : Option JStatus := none
  inserted : Option Nat := none
  total : Option Nat := none
  startedAt : Option Nat := none
  finishedAt : Option (Option Nat) := none
  error : Option (Option String) := none
  canceled : Option Bool := none
  deriving Repr

/-- The effect of Object.assign(j, patch) followed by a fresh updatedAt,
as performed by updateJob in jobState.js. -/
def applyPatch (j : Job) (p : JobPatch) (t : Nat) : Job :=
  { id := p.id.getD j.id
    by_ := p.by_.getD j.by_
    status := p.status.getD j.status
    inserted := p.inserted.getD j.inserted
    total := p.total.getD j.total
    startedAt := p.startedAt.getD j.startedAt
    finishedAt := p.finishedAt.getD j.finishedAt
    updatedAt := t
    error := p.error.getD j.error
    canceled := p.canceled.getD j.canceled }

/-- The in-memory job registry (the jobs Map of jobState.js), as a
partial map from job id to record. -/
def JobReg : Type := String → Option Job

/-- getJob from jobState.js. -/
def getJob (reg : JobReg) (id : String) : Option Job := reg id

/-- updateJob from jobState.js: patch an existing record and refresh
updatedAt; return null (none) and leave the registry untouched for an
unknown id.  Result: (returned record, registry afterwards). -/
def updateJob (reg : JobReg) (id : String) (p : JobPatch) (t : Nat) :
    Option Job × JobReg :=
  match reg id with
  | none => (none, reg)
  | some j =>
    let j2 := applyPatch j p t
    (some j2, fun k => if k = id then some j2 else reg k)

/-- cancelJob from jobState.js: set the canceled flag and refresh
updatedAt, keeping status as it is; the builder is the one that later
flips status to canceled. -/
def cancelJob (reg : JobReg) (id : String) (t : Nat) :
    Option Job × JobReg :=
  match reg id with
  | none => (none, reg)
  | some j =>
    let j2 := { j with canceled := true, updatedAt := t }
    (some j2, fun k => if k = id then some j2 else reg k)

/-! ### TTL cache from vectorController.js -/

/-- A cache entry: value plus absolute expiry tick. -/
structure CacheEntry (α : Type) where
  expiresAt : Nat
  value : α
  deriving DecidableEq, Repr

/-- The in-memory cache Map keyed by the similar:id:limit string. -/
def Cache (α : Type) : Type := String → Option (CacheEntry α)

/-- cacheGet from vectorController.js: a hit strictly past its expiresAt
is deleted on the spot and reported as a miss.  Returns the value (or
none) together with the cache as it stands after the lookup. -/
def cacheGet {α : Type} (c : Cache α) (key : String) (now : Nat) :
    Option α × Cache α :=
  match c key with
  | none => (none, c)
  | some hit =>
    if hit.expiresAt < now then
      (none, fun k => if k = key then none else c k)
    else
      (some hit.value, c)

/-- cacheSet from vectorController.js. -/
def cacheSet {α : Type} (c : Cache α) (key : String) (v : α)
    (now ttl : Nat) : Cache α :=
  fun k => if k = key then some { expiresAt := now + ttl, value := v } else c k

/-! ### Sort-key registry and request validation -/

/-- Column value type of a sort key (int or text). -/
inductive ColType
  | int
  | text
  deriving DecidableEq, Repr

/-- Declared ordering direction of a sort key. -/
inductive SortOrder
  | asc
  | desc
  deriving DecidableEq, Repr

/-- A SORTS registry entry from derivedArtistsController.js. -/
structure SortCfg where
  column : String
  type : ColType
  order : SortOrder
  deriving DecidableEq, Repr

/-- The static SORTS registry from derivedArtistsController.js. -/
def SORTS (key : String) : Option SortCfg :=
  if key = "popularity" then some ⟨"popularity", .int, .desc⟩
  else if key = "followers" then some ⟨"followers", .int, .desc⟩
  else if key = "name" then some ⟨"name_lc", .text, .asc⟩
  else none

/-- The pre-I/O phase of getTop: an unregistered sort key is rejected
with a 400; the limit is clamped to 50 with Math.min and the request
proceeds.  Result: the config and effective limit, or the rejection. -/
def getTopValidate (by_ : String) (rawLimit : Nat) :
    Except String (SortCfg × Nat) :=
  match SORTS by_ with
  | none => .error "Unsupported sort key"
  | some cfg => .ok (cfg, min rawLimit 50)

/-- The pre-I/O phase of similarArtists: the limit is clamped to 25 with
Math.min; no limit value is ever rejected. -/
def similarLimit (rawLimit : Nat) : Nat := min rawLimit 25

/-! ### Cosine similarity from vectorController.js -/

/-- cosineSim from vectorController.js: the loop runs over the
overlapping index range min |a| |b|; the divisor is the JS expression
denom-or-one, which replaces the norm product by 1 exactly when it is
zero.  Components are idealized as reals. -/
noncomputable def cosineSim (a b : List ℝ) : ℝ :=
  let len := min a.length b.length
  let dot := ((List.range len).map (fun i => a.getD i 0 * b.getD i 0)).sum
  let na := ((List.range len).map (fun i => a.getD i 0 * a.getD i 0)).sum
  let nb := ((List.range len).map (fun i => b.getD i 0 * b.getD i 0)).sum
  let denom := Real.sqrt na * Real.sqrt nb
  dot / (if denom = 0 then 1 else denom)

/-- The similarity formula exactly as the claim words it: the divisor is
the maximum of the norm product and 1 (a floor at 1).  Kept only for
comparison against cosineSim. -/
noncomputable def cosineSimClaimed (a b : List ℝ) : ℝ :=
  let len := min a.length b.length
  let dot := ((List.range len).map (fun i => a.getD i 0 * b.getD i 0)).sum
  let na := ((List.range len).map (fun i => a.getD i 0 * a.getD i 0)).sum
  let nb := ((List.range len).map (fun i => b.getD i 0 * b.getD i 0)).sum
  let denom := Real.sqrt na * Real.sqrt nb
  dot / max denom 1

/-! ### Top-K reader from derivedArtistsController.js getTop -/

/-- Code-point lexicographic comparison on char lists; the model of the
JS localeCompare tie-break (for the ASCII-lowercased sortable names the
code compares, locale order and code-point order agree). -/
def charListLe : List Char → List Char → Bool
  | [], _ => true
  | _ :: _, [] => false
  | a :: as, b :: bs =>
    if a.toNat < b.toNat then true
    else if b.toNat < a.toNat then false
    else charListLe as bs

/-- localeCompare as a boolean less-or-equal on strings. -/
def strLe (a b : String) : Bool := charListLe a.data b.data

/-- A derived-table row as selected by getTop (images omitted: the image
url is a per-row projection that affects neither count nor order). -/
structure DRow where
  artist_id : String
  name : Option String
  name_lc : Option String
  value : Option Int
  deriving DecidableEq, Repr

/-- Sort-column value with the JS null-coalescing default 0. -/
def DRow.valD (r : DRow) : Int := r.value.getD 0

/-- Sortable name with the JS null-coalescing default empty string. -/
def DRow.nameD (r : DRow) : String := r.name_lc.getD ""

/-- The comparator passed to rows.sort in getTop, as a boolean ordering:
descending by sort value, ties broken by sortable name ascending. -/
def topCmpLe (a b : DRow) : Bool :=
  (b.valD < a.valD) || (a.valD == b.valD && strLe a.nameD b.nameD)

/-- The per-bucket LIMIT used by getTop for numeric sorts:
Math.max(Math.ceil(limit / 5), 5), with ceil written in Nat division. -/
def perBucket (limit : Nat) : Nat := max ((limit + 4) / 5) 5

/-- getTop, numeric layout: cut each bucket at the per-bucket LIMIT (the
bucket content arrives in clustering order, so the cut is the bucket's
local top), pool all slices, sort with the comparator and truncate to
the limit.  bucketRows b is the full content of bucket b in clustering
order; buckets is the bucket count stored in the meta table. -/
def getTopNumeric (bucketRows : Nat → List DRow) (buckets limit : Nat) :
    List DRow :=
  let rows := (List.range buckets).flatMap
    (fun b => (bucketRows b).take (perBucket limit))
  (rows.mergeSort topCmpLe).take limit

/-- The numeric reader exactly as the claim words it: each bucket cut at
ceil(limit / 5) rows.  Kept only for comparison with getTopNumeric. -/
def getTopNumericClaimed (bucketRows : Nat → List DRow)
    (buckets limit : Nat) : List DRow :=
  let rows := (List.range buckets).flatMap
    (fun b => (bucketRows b).take ((limit + 4) / 5))
  (rows.mergeSort topCmpLe).take limit

/-- getTop, text layout: one LIMIT query with no ORDER BY; rows come back
in whatever order the storage walks its partitions (token-hash order,
not the declared alphabetical order) and the first limit are kept.
storageRows is the table content in that storage order. -/
def getTopText (storageRows : List DRow) (limit : Nat) : List DRow :=
  storageRows.take limit

/-- Concrete bucket contents for the C4 counterexample: one bucket whose
clustering-ordered content holds six rows. -/
def cex4Rows : Nat → List DRow := fun b =>
  if b = 0 then
    [⟨"i1", some "E1", some "e1", some 10⟩,
     ⟨"i2", some "E2", some "e2", some 9⟩,
     ⟨"i3", some "E3", some "e3", some 8⟩,
     ⟨"i4", some "E4", some "e4", some 7⟩,
     ⟨"i5", some "E5", some "e5", some 6⟩,
     ⟨"i6", some "E6", some "e6", some 5⟩]
  else []

/-- Concrete storage-order content for the C5 counterexample: the text
table returns its partitions in hash order, here b before a. -/
def cex5Rows : List DRow :=
  [⟨"idb", some "B", some "b", none⟩,
   ⟨"ida", some "A", some "a", none⟩]

/-! ### bucketFor: the MD5 bucket hash from derivedArtistsController.js

bucketFor hashes the stable key with MD5, reads the first four digest
bytes big-endian and reduces modulo the bucket count.  MD5 is embedded
below over Nat with explicit mod 2 to the 32. -/

/-- The 32-bit word modulus. -/
def w32 : Nat := 4294967296

/-- 32-bit bitwise complement. -/
def not32 (x : Nat) : Nat := x ^^^ 4294967295

/-- 32-bit left rotation (x below 2 to the 32, c below 32). -/
def rotl32 (x c : Nat) : Nat := ((x <<< c) % w32) ||| (x >>> (32 - c))

/-- The 64 MD5 round constants. -/
def md5K : List Nat :=
  [0xd76aa478, 0xe8c7b756, 0x242070db, 0xc1bdceee,
   0xf57c0faf, 0x4787c62a, 0xa8304613, 0xfd469501,
   0x698098d8, 0x8b44f7af, 0xffff5bb1, 0x895cd7be,
   0x6b901122, 0xfd987193, 0xa679438e, 0x49b40821,
   0xf61e2562, 0xc040b340, 0x265e5a51, 0xe9b6c7aa,
   0xd62f105d, 0x02441453, 0xd8a1e681, 0xe7d3fbc8,
   0x21e1cde6, 0xc33707d6, 0xf4d50d87, 0x455a14ed,
   0xa9e3e905, 0xfcefa3f8, 0x676f02d9, 0x8d2a4c8a,
   0xfffa3942, 0x8771f681, 0x6d9d6122, 0xfde5380c,
   0xa4beea44, 0x4bdecfa9, 0xf6bb4b60, 0xbebfbc70,
   0x289b7ec6, 0xeaa127fa, 0xd4ef3085, 0x04881d05,
   0xd9d4d039, 0xe6db99e5, 0x1fa27cf8, 0xc4ac5665,
   0xf4292244, 0x432aff97, 0xab9423a7, 0xfc93a039,
   0x655b59c3, 0x8f0ccc92, 0xffeff47d, 0x85845dd1,
   0x6fa87e4f, 0xfe2ce6e0, 0xa3014314, 0x4e0811a1,
   0xf7537e82, 0xbd3af235, 0x2ad7d2bb, 0xeb86d391]

/-- The 64 MD5 per-round shift amounts. -/
def md5S : List Nat :=
  [7, 12, 17, 22, 7, 12, 17, 22, 7, 12, 17, 22, 7, 12, 17, 22,
   5, 9, 14, 20, 5, 9, 14, 20, 5, 9, 14, 20, 5, 9, 14, 20,
   4, 11, 16, 23, 4, 11, 16, 23, 4, 11, 16, 23, 4, 11, 16, 23,
   6, 10, 15, 21, 6, 10, 15, 21, 6, 10, 15, 21, 6, 10, 15, 21]

/-- One MD5 round on the state (a, b, c, d) with message-word accessor M. -/
def md5Round (M : Nat → Nat) (st : Nat × Nat × Nat × Nat) (i : Nat) :
    Nat × Nat × Nat × Nat :=
  let a := st.1
  let b := st.2.1
  let c := st.2.2.1
  let d := st.2.2.2
  let fg : Nat × Nat :=
    if i < 16 then ((b &&& c) ||| (not32 b &&& d), i)
    else if i < 32 then ((d &&& b) ||| (not32 d &&& c), (5 * i + 1) % 16)
    else if i < 48 then (b ^^^ c ^^^ d, (3 * i + 5) % 16)
    else (c ^^^ (b ||| not32 d), (7 * i) % 16)
  let f := (fg.1 + a + md5K.getD i 0 + M fg.2) % w32
  (d, (b + rotl32 f (md5S.getD i 0)) % w32, b, c)

/-- Little-endian 32-bit word at word index g of a 64-byte block. -/
def leWord (block : List Nat) (g : Nat) : Nat :=
  block.getD (4 * g) 0 + 256 * block.getD (4 * g + 1) 0 +
    65536 * block.getD (4 * g + 2) 0 + 16777216 * block.getD (4 * g + 3) 0

/-- Fold one 64-byte block into the running MD5 state. -/
def md5Block (st : Nat × Nat × Nat × Nat) (block : List Nat) :
    Nat × Nat × Nat × Nat :=
  let r := (List.range 64).foldl (md5Round (leWord block)) st
  ((st.1 + r.1) % w32, (st.2.1 + r.2.1) % w32,
   (st.2.2.1 + r.2.2.1) % w32, (st.2.2.2 + r.2.2.2) % w32)

/-- MD5 padding: append the byte 0x80, zero-fill so the length becomes
56 mod 64, then append the original bit length as a 64-bit little-endian
quantity. -/
def md5Pad (msg : List Nat) : List Nat :=
  let zeros := (120 - (msg.length + 1) % 64) % 64
  let bitLen := (8 * msg.length) % (2 ^ 64)
  msg ++ [128] ++ List.replicate zeros 0 ++
    (List.range 8).map (fun i => (bitLen >>> (8 * i)) % 256)

/-- Structural splitter into 64-byte chunks; the fuel is an upper bound
on the chunk count, so chunks64 below always supplies enough. -/
def chunks64Go : Nat → List Nat → List (List Nat)
  | _, [] => []
  | 0, l => [l]
  | fuel + 1, l => l.take 64 :: chunks64Go fuel (l.drop 64)

/-- Split a byte list into 64-byte chunks. -/
def chunks64 (l : List Nat) : List (List Nat) := chunks64Go l.length l

/-- The 16 MD5 digest bytes of a byte message. -/
def md5Digest (msg : List Nat) : List Nat :=
  let st := (chunks64 (md5Pad msg)).foldl md5Block
    (0x67452301, 0xefcdab89, 0x98badcfe, 0x10325476)
  ((List.range 4).map (fun i => (st.1 >>> (8 * i)) % 256)) ++
    ((List.range 4).map (fun i => (st.2.1 >>> (8 * i)) % 256)) ++
    ((List.range 4).map (fun i => (st.2.2.1 >>> (8 * i)) % 256)) ++
    ((List.range 4).map (fun i => (st.2.2.2 >>> (8 * i)) % 256))

/-- UTF-8 encoding of one code point. -/
def utf8Bytes (c : Nat) : List Nat :=
  if c < 128 then [c]
  else if c < 2048 then [192 ||| (c >>> 6), 128 ||| (c &&& 63)]
  else if c < 65536 then
    [224 ||| (c >>> 12), 128 ||| ((c >>> 6) &&& 63), 128 ||| (c &&& 63)]
  else
    [240 ||| (c >>> 18), 128 ||| ((c >>> 12) &&& 63),
     128 ||| ((c >>> 6) &&& 63), 128 ||| (c &&& 63)]

/-- UTF-8 bytes of a string (the Buffer the JS hash update sees). -/
def strBytes (s : String) : List Nat :=
  s.data.flatMap (fun ch => utf8Bytes ch.toNat)

/-- readUInt32BE(0) over a digest byte list. -/
def readUInt32BE (bytes : List Nat) : Nat :=
  16777216 * bytes.getD 0 0 + 65536 * bytes.getD 1 0 +
    256 * bytes.getD 2 0 + bytes.getD 3 0

/-- bucketFor from derivedArtistsController.js: first four MD5 digest
bytes of the key read big-endian, modulo the bucket count.  The JS
String(key or empty) null guard is modelled by callers passing the empty
string for a missing key. -/
def bucketFor (key : String) (buckets : Nat) : Nat :=
  readUInt32BE (md5Digest (strBytes key)) % buckets

/-! ### Backfill executor: the startBuild scan loop

The detached backfill of startBuild is modelled as a pure function of
the source rows and a cancellation schedule.  cancelAt = some c means
the cancelJob flag write becomes visible just before the row check with
global index c (c greater than or equal to the row count means it lands
after the last check, before the final status test); none means no
cancel happens during the run.  The executor threads the registry job
record through applyPatch exactly as the updateJob calls do, and records
a trace of the record after every registry update. -/

/-- A source-table row as selected by the backfill scan. -/
structure SourceRow where
  artist_id : String
  name : Option String
  name_lc : Option String
  followers : Option Int
  popularity : Option Int
  images : Option String
  deriving DecidableEq, Repr

/-- r[cfg.column] for the int-typed sort columns. -/
def colIntVal (col : String) (r : SourceRow) : Option Int :=
  if col = "popularity" then r.popularity
  else if col = "followers" then r.followers
  else none

/-- Whether a scanned row leads to an insert: for int sorts rows with a
null sort column are skipped (continue), for text sorts every row is
written (null text values become empty strings, still inserted). -/
def rowInserted (cfg : SortCfg) (r : SourceRow) : Bool :=
  match cfg.type with
  | .int => (colIntVal cfg.column r).isSome
  | .text => true

/-- Number of scanned rows that lead to inserts. -/
def countIns (cfg : SortCfg) (rows : List SourceRow) : Nat :=
  (rows.filter (rowInserted cfg)).length

/-- Executor state: the registry record of the job it drives, the local
inserted counter, the global index of the next row check, a clock
supplying updatedAt ticks, and the trace of record snapshots taken after
every registry update. -/
structure ExecSt where
  job : Job
  localIns : Nat
  idx : Nat
  clock : Nat
  trace : List Job
  deriving Repr

/-- An updateJob call made from inside the executor: apply the patch
with the current clock as the fresh updatedAt, tick the clock, and
snapshot the record into the trace. -/
def execUpd (st : ExecSt) (p : JobPatch) : ExecSt :=
  let j := applyPatch st.job p st.clock
  { st with job := j, clock := st.clock + 1, trace := st.trace ++ [j] }

/-- Whether the cancellation flag scheduled at check index c is visible
at check index i. -/
def flagSeen (cancelAt : Option Nat) (i : Nat) : Bool :=
  match cancelAt with
  | none => false
  | some c => decide (c ≤ i)

/-- The per-row work once the cancellation check has passed: skip a null
int sort column (continue), otherwise insert the physical row; bump the
local counter on insert and flush it into the registry every 250
inserts; either way the next check index advances. -/
def rowStep (cfg : SortCfg) (r : SourceRow) (st : ExecSt) : ExecSt :=
  let did := rowInserted cfg r
  let newIns := if did then st.localIns + 1 else st.localIns
  let st1 := { st with localIns := newIns, idx := st.idx + 1 }
  if did && newIns % 250 == 0 then
    execUpd st1 { inserted := some newIns }
  else st1

/-- Process the rows of one fetched page.  Per row, first consult the
registry (getJob): if the cancel flag is visible, fold in the flag write
cancelJob performed, transition the job to canceled and abandon the scan
(break outer); otherwise do the row work.  Returns the state plus
whether the scan was abandoned. -/
def runRows (cfg : SortCfg) (cancelAt : Option Nat) :
    List SourceRow → ExecSt → ExecSt × Bool
  | [], st => (st, false)
  | r :: rest, st =>
    if flagSeen cancelAt st.idx then
      let st1 := { st with job := { st.job with canceled := true } }
      (execUpd st1 { status := some .canceled,
                     finishedAt := some (some st1.clock) }, true)
    else
      runRows cfg cancelAt rest (rowStep cfg r st)

/-- The do-while page loop with explicit fuel (runPages below always
supplies enough): fetch a page of up to 500 rows, process it, flush the
counter at page end, and continue while rows remain; a canceled break
abandons the page-end flush too (break outer). -/
def runPagesGo (cfg : SortCfg) (cancelAt : Option Nat) :
    Nat → List SourceRow → ExecSt → ExecSt
  | 0, _, st => st
  | fuel + 1, rows, st =>
    let pr := runRows cfg cancelAt (rows.take 500) st
    if pr.2 then pr.1
    else
      let st2 := execUpd pr.1 { inserted := some pr.1.localIns }
      let rest := rows.drop 500
      if rest = [] then st2
      else runPagesGo cfg cancelAt fuel rest st2

/-- The page loop of the backfill. -/
def runPages (cfg : SortCfg) (cancelAt : Option Nat)
    (rows : List SourceRow) (st : ExecSt) : ExecSt :=
  runPagesGo cfg cancelAt (rows.length + 1) rows st

/-- The synchronous prefix of startBuild: create the job, mark it
building, and record the count-query total on the record. -/
def buildInitSt (key : String) (total : Nat) : ExecSt :=
  let j0 := createJobRecord "j1" key 0
  let st0 : ExecSt :=
    { job := j0, localIns := 0, idx := 0, clock := 1, trace := [j0] }
  execUpd (execUpd st0 { status := some .building }) { total := some total }

/-- Fold into the record a cancelJob flag write that happened during the
run but was never observed by a row check (it lands before the final
status test of the detached task). -/
def foldFlag (st : ExecSt) (cancelAt : Option Nat) : ExecSt :=
  if flagSeen cancelAt st.idx then
    { st with job := { st.job with canceled := true } }
  else st

/-- The final status test of the detached task: unless the scan flipped
the status to canceled (or a storage fault to error, unreachable in this
fault-free model), mark the job done with the final local counter. -/
def finishBuild (st : ExecSt) : ExecSt :=
  if st.job.status = .canceled ∨ st.job.status = .error then st
  else
    execUpd st { status := some .done, inserted := some st.localIns,
                 finishedAt := some (some st.clock) }

/-- The full startBuild run for one sort config: initialise the job,
run the paginated scan under the cancellation schedule, fold in an
unobserved flag write, and run the final status test. -/
def startBuildRun (key : String) (cfg : SortCfg) (rows : List SourceRow)
    (cancelAt : Option Nat) : ExecSt :=
  finishBuild
    (foldFlag (runPages cfg cancelAt rows (buildInitSt key rows.length)) cancelAt)

/-! ## Theorems -/

/-- RFC 1321 test vector: the MD5 digest of the empty message, checking
the embedding of the hash byte-for-byte. -/
theorem md5Digest_empty_vector :
    md5Digest (strBytes "") =
      [212, 29, 140, 217, 143, 0, 178, 4,
       233, 128, 9, 152, 236, 248, 66, 126] := by
  decide

/-- RFC 1321 test vector: the MD5 digest of the message abc. -/
theorem md5Digest_abc_vector :
    md5Digest (strBytes "abc") =
      [144, 1, 80, 152, 60, 210, 79, 176,
       214, 150, 63, 125, 40, 225, 127, 114] := by
  decide

/-- Claim C3: cancelJob only sets the canceled flag (plus the updatedAt
refresh that every registry mutation performs): the status field and all
other fields are unchanged for every status including terminal ones, the
call still succeeds (returns the record), it is idempotent, no other
registry entry is touched, and an unknown id yields null with the
registry unchanged.  Only the backfill executor observing the flag later
performs the transition to canceled (see the executor model). -/
theorem cancelJob_only_sets_flag (reg : JobReg) (id : String) (t : Nat) :
    (reg id = none → cancelJob reg id t = (none, reg)) ∧
    (∀ j, reg id = some j →
      (cancelJob reg id t).1 = some { j with canceled := true, updatedAt := t } ∧
      (cancelJob reg id t).2 id = (cancelJob reg id t).1 ∧
      (∀ k, k ≠ id → (cancelJob reg id t).2 k = reg k) ∧
      (∀ j2, (cancelJob reg id t).1 = some j2 →
        j2.status = j.status ∧ j2.canceled = true ∧ j2.inserted = j.inserted ∧
        j2.total = j.total ∧ j2.error = j.error ∧
        j2.finishedAt = j.finishedAt ∧ j2.startedAt = j.startedAt ∧
        j2.id = j.id ∧ j2.by_ = j.by_) ∧
      cancelJob (cancelJob reg id t).2 id t = cancelJob reg id t) := by
  constructor
  · intro h
    simp [cancelJob, h]
  · intro j hj
    refine ⟨by simp [cancelJob, hj], by simp [cancelJob, hj], ?_, ?_, ?_⟩
    · intro k hk
      simp [cancelJob, hj, hk]
    · intro j2 hj2
      simp [cancelJob, hj] at hj2
      subst hj2
      simp
    · simp only [cancelJob, hj]
      refine Prod.ext ?_ ?_
      · simp
      · funext k
        by_cases hk : k = id <;> simp [hk]

/-- Witness for C3 at a concrete registry holding one terminal (done) job. -/
theorem cancelJob_only_sets_flag_witness :
    (cancelJob
      (fun k => if k = "a" then some (createJobRecord "a" "name" 0) else none)
      "a" 7).1 =
      some { createJobRecord "a" "name" 0 with canceled := true, updatedAt := 7 } :=
  (((cancelJob_only_sets_flag
    (fun k => if k = "a" then some (createJobRecord "a" "name" 0) else none)
    "a" 7).2 (createJobRecord "a" "name" 0)) (by simp)).1

/-- Claim C9: a cache entry whose expiry tick has passed is never served:
the lookup misses, the entry is deleted lazily by that very lookup, and
no other key is touched (no proactive sweep; cacheSet likewise only
writes its own key). -/
theorem cacheGet_expired_lazy_evict {α : Type} (c : Cache α) (key : String)
    (now : Nat) (e : CacheEntry α) (hhit : c key = some e)
    (hexp : e.expiresAt < now) :
    (cacheGet c key now).1 = none ∧
    (cacheGet c key now).2 key = none ∧
    (∀ k, k ≠ key → (cacheGet c key now).2 k = c k) ∧
    (∀ (v : α) (ttl : Nat) (k : String), k ≠ key →
      cacheSet c key v now ttl k = c k) := by
  refine ⟨?_, ?_, ?_, ?_⟩
  · simp [cacheGet, hhit, hexp]
  · simp [cacheGet, hhit, hexp]
  · intro k hk
    simp [cacheGet, hhit, hexp, hk]
  · intro v ttl k hk
    simp [cacheSet, hk]

/-- Witness for C9: a concrete one-entry cache looked up one tick past
its expiry. -/
theorem cacheGet_expired_lazy_evict_witness :
    (cacheGet (fun k => if k = "similar:x:5" then some ⟨5, 42⟩ else none)
      "similar:x:5" 6).1 = (none : Option Nat) ∧
    (cacheGet (fun k => if k = "similar:x:5" then some ⟨5, (42 : Nat)⟩ else none)
      "similar:x:5" 6).2 "similar:x:5" = none :=
  ⟨(cacheGet_expired_lazy_evict _ "similar:x:5" 6 ⟨5, 42⟩ (by simp) (by simp)).1,
   (cacheGet_expired_lazy_evict _ "similar:x:5" 6 ⟨5, 42⟩ (by simp) (by simp)).2.1⟩

/-- Claim C10: updateJob on a present id changes exactly the fields named
in the patch plus updatedAt, leaves every other field and every other
registry entry unchanged, applies a patched status regardless of the
current one (no state-machine rule in the registry), and on an unknown
id returns null leaving the registry untouched. -/
theorem updateJob_frame (reg : JobReg) (id : String) (p : JobPatch) (t : Nat) :
    (reg id = none → updateJob reg id p t = (none, reg)) ∧
    (∀ j, reg id = some j →
      (updateJob reg id p t).1 = some (applyPatch j p t) ∧
      (updateJob reg id p t).2 id = some (applyPatch j p t) ∧
      (∀ k, k ≠ id → (updateJob reg id p t).2 k = reg k) ∧
      (applyPatch j p t).updatedAt = t ∧
      (p.id = none → (applyPatch j p t).id = j.id) ∧
      (∀ v, p.id = some v → (applyPatch j p t).id = v) ∧
      (p.by_ = none → (applyPatch j p t).by_ = j.by_) ∧
      (∀ v, p.by_ = some v → (applyPatch j p t).by_ = v) ∧
      (p.status = none → (applyPatch j p t).status = j.status) ∧
      (∀ v, p.status = some v → (applyPatch j p t).status = v) ∧
      (p.inserted = none → (applyPatch j p t).inserted = j.inserted) ∧
      (∀ v, p.inserted = some v → (applyPatch j p t).inserted = v) ∧
      (p.total = none → (applyPatch j p t).total = j.total) ∧
      (∀ v, p.total = some v → (applyPatch j p t).total = v) ∧
      (p.startedAt = none → (applyPatch j p t).startedAt = j.startedAt) ∧
      (∀ v, p.startedAt = some v → (applyPatch j p t).startedAt = v) ∧
      (p.finishedAt = none → (applyPatch j p t).finishedAt = j.finishedAt) ∧
      (∀ v, p.finishedAt = some v → (applyPatch j p t).finishedAt = v) ∧
      (p.error = none → (applyPatch j p t).error = j.error) ∧
      (∀ v, p.error = some v → (applyPatch j p t).error = v) ∧
      (p.canceled = none → (applyPatch j p t).canceled = j.canceled) ∧
      (∀ v, p.canceled = some v → (applyPatch j p t).canceled = v)) := by
  constructor
  · intro h
    simp [updateJob, h]
  · intro j hj
    refine ⟨by simp [updateJob, hj], by simp [updateJob, hj], ?_, by simp [applyPatch], ?_⟩
    · intro k hk
      simp [updateJob, hj, hk]
    · refine ⟨fun h => by simp [applyPatch, h], fun v h => by simp [applyPatch, h], ?_⟩
      refine ⟨fun h => by simp [applyPatch, h], fun v h => by simp [applyPatch, h], ?_⟩
      refine ⟨fun h => by simp [applyPatch, h], fun v h => by simp [applyPatch, h], ?_⟩
      refine ⟨fun h => by simp [applyPatch, h], fun v h => by simp [applyPatch, h], ?_⟩
      refine ⟨fun h => by simp [applyPatch, h], fun v h => by simp [applyPatch, h], ?_⟩
      refine ⟨fun h => by simp [applyPatch, h], fun v h => by simp [applyPatch, h], ?_⟩
      refine ⟨fun h => by simp [applyPatch, h], fun v h => by simp [applyPatch, h], ?_⟩
      refine ⟨fun h => by simp [applyPatch, h], fun v h => by simp [applyPatch, h], ?_⟩
      exact ⟨fun h => by simp [applyPatch, h], fun v h => by simp [applyPatch, h]⟩

/-- Cons-level characterization of the char-list comparison. -/
theorem charListLe_cons (x y : Char) (xs ys : List Char) :
    charListLe (x :: xs) (y :: ys) = true ↔
      (x.toNat < y.toNat ∨ (x.toNat = y.toNat ∧ charListLe xs ys = true)) := by
  simp only [charListLe]
  by_cases h1 : x.toNat < y.toNat
  · simp [h1]
  · by_cases h2 : y.toNat < x.toNat
    · simp only [if_neg h1, if_pos h2]
      refine ⟨fun h => absurd h (by simp), ?_⟩
      rintro (h | ⟨he, -⟩) <;> omega
    · simp only [if_neg h1, if_neg h2]
      constructor
      · intro h
        exact Or.inr ⟨by omega, h⟩
      · rintro (h | ⟨-, h⟩)
        · exact absurd h h1
        · exact h

/-- Transitivity of the char-list comparison. -/
theorem charListLe_trans : ∀ (a b c : List Char), charListLe a b = true →
    charListLe b c = true → charListLe a c = true
  | [], _, _, _, _ => rfl
  | _ :: _, [], _, h, _ => by simp [charListLe] at h
  | _ :: _, _ :: _, [], _, h => by simp [charListLe] at h
  | x :: xs, y :: ys, z :: zs, h1, h2 => by
    rw [charListLe_cons] at h1 h2 ⊢
    rcases h1 with h1 | ⟨he1, hr1⟩ <;> rcases h2 with h2 | ⟨he2, hr2⟩
    · exact Or.inl (by omega)
    · exact Or.inl (by omega)
    · exact Or.inl (by omega)
    · exact Or.inr ⟨by omega, charListLe_trans xs ys zs hr1 hr2⟩

/-- Totality of the char-list comparison. -/
theorem charListLe_total : ∀ (a b : List Char),
    (charListLe a b || charListLe b a) = true
  | [], _ => by simp [charListLe]
  | _ :: _, [] => by simp [charListLe]
  | x :: xs, y :: ys => by
    have ih := charListLe_total xs ys
    simp only [Bool.or_eq_true, charListLe_cons] at ih ⊢
    by_cases hxy : x.toNat < y.toNat
    · exact Or.inl (Or.inl hxy)
    · by_cases hyx : y.toNat < x.toNat
      · exact Or.inr (Or.inl hyx)
      · rcases ih with h | h
        · exact Or.inl (Or.inr ⟨by omega, h⟩)
        · exact Or.inr (Or.inr ⟨by omega, h⟩)

/-- Transitivity of the string comparison. -/
theorem strLe_trans (a b c : String) (h1 : strLe a b = true)
    (h2 : strLe b c = true) : strLe a c = true :=
  charListLe_trans a.data b.data c.data h1 h2

/-- Totality of the string comparison. -/
theorem strLe_total (a b : String) : (strLe a b || strLe b a) = true :=
  charListLe_total a.data b.data

/-- Transitivity of the getTop merge comparator. -/
theorem topCmpLe_trans (a b c : DRow) (h1 : topCmpLe a b = true)
    (h2 : topCmpLe b c = true) : topCmpLe a c = true := by
  simp only [topCmpLe, Bool.or_eq_true, Bool.and_eq_true,
    decide_eq_true_eq, beq_iff_eq] at h1 h2 ⊢
  rcases h1 with h1 | ⟨he1, hs1⟩ <;> rcases h2 with h2 | ⟨he2, hs2⟩
  · exact Or.inl (by omega)
  · exact Or.inl (by omega)
  · exact Or.inl (by omega)
  · exact Or.inr ⟨by omega, strLe_trans _ _ _ hs1 hs2⟩

/-- Totality of the getTop merge comparator. -/
theorem topCmpLe_total (a b : DRow) :
    (topCmpLe a b || topCmpLe b a) = true := by
  simp only [topCmpLe, Bool.or_eq_true, Bool.and_eq_true,
    decide_eq_true_eq, beq_iff_eq]
  rcases lt_trichotomy a.valD b.valD with h | h | h
  · exact Or.inr (Or.inl h)
  · have := strLe_total a.nameD b.nameD
    simp only [Bool.or_eq_true] at this
    rcases this with hs | hs
    · exact Or.inl (Or.inr ⟨h, hs⟩)
    · exact Or.inr (Or.inr ⟨h.symm, hs⟩)
  · exact Or.inl (Or.inl h)

/-- List-range sums agree with Finset-range sums. -/
theorem sum_map_range (f : ℕ → ℝ) :
    ∀ n, ((List.range n).map f).sum = ∑ i ∈ Finset.range n, f i := by
  intro n
  induction n with
  | zero => simp
  | succ k ih => simp [List.range_succ, Finset.sum_range_succ, ih]

/-- Claim C7 (amended): the score is the dot product over the
overlapping index range of length min of the two lengths, divided by the
product of the two prefix norms, except that the divisor is replaced by
1 exactly when that product is zero (the JS denom-or-1 expression), not
whenever it is below 1. -/
theorem cosineSim_formula (a b : List ℝ) :
    (Real.sqrt (∑ i ∈ Finset.range (min a.length b.length),
        a.getD i 0 * a.getD i 0) *
      Real.sqrt (∑ i ∈ Finset.range (min a.length b.length),
        b.getD i 0 * b.getD i 0) ≠ 0 →
      cosineSim a b =
        (∑ i ∈ Finset.range (min a.length b.length), a.getD i 0 * b.getD i 0) /
        (Real.sqrt (∑ i ∈ Finset.range (min a.length b.length),
            a.getD i 0 * a.getD i 0) *
          Real.sqrt (∑ i ∈ Finset.range (min a.length b.length),
            b.getD i 0 * b.getD i 0))) ∧
    (Real.sqrt (∑ i ∈ Finset.range (min a.length b.length),
        a.getD i 0 * a.getD i 0) *
      Real.sqrt (∑ i ∈ Finset.range (min a.length b.length),
        b.getD i 0 * b.getD i 0) = 0 →
      cosineSim a b =
        ∑ i ∈ Finset.range (min a.length b.length), a.getD i 0 * b.getD i 0) := by
  simp only [cosineSim, sum_map_range]
  constructor
  · intro h
    rw [if_neg h]
  · intro h
    rw [if_pos h, div_one]

/-- Witness for C7 on the one-component vectors [1] and [1]. -/
theorem cosineSim_formula_witness : cosineSim [(1 : ℝ)] [(1 : ℝ)] = 1 := by
  have h := (cosineSim_formula [(1 : ℝ)] [(1 : ℝ)]).1
  simp [Real.sqrt_one] at h
  exact h

/-- Counterexample for C7 as stated: on the vectors [1/2] and [1/2] the
code divides by the norm product 1/4 itself (scoring 1), while the
claimed formula with the divisor max(product, 1) would score 1/4. -/
theorem cosineSim_denom_counterexample :
    cosineSim [(1 : ℝ)/2] [(1 : ℝ)/2] = 1 ∧
    cosineSimClaimed [(1 : ℝ)/2] [(1 : ℝ)/2] = 1/4 := by
  have hs : Real.sqrt ((1 : ℝ)/2 * (1/2)) = 1/2 := by
    rw [show (1 : ℝ)/2 * (1/2) = ((1 : ℝ)/2)^2 by ring]
    exact Real.sqrt_sq (by norm_num)
  constructor
  · simp only [cosineSim]
    rw [show List.range ([(1 : ℝ)/2].length ⊓ [(1 : ℝ)/2].length) = [0] from rfl]
    simp only [List.map_cons, List.map_nil, List.sum_cons, List.sum_nil,
      List.getD_cons_zero, add_zero]
    rw [hs]
    norm_num
  · simp only [cosineSimClaimed]
    rw [show List.range ([(1 : ℝ)/2].length ⊓ [(1 : ℝ)/2].length) = [0] from rfl]
    simp only [List.map_cons, List.map_nil, List.sum_cons, List.sum_nil,
      List.getD_cons_zero, add_zero]
    rw [hs]
    norm_num [max_def]

/-- Claim C4 (amended): for the numeric layout, getTop pools from each
of the stored bucketCount buckets exactly its locally top
max(ceil(limit/5), 5) rows — not ceil(limit/5) — then sorts the pooled
rows with the merge comparator and truncates to the limit. -/
theorem getTopNumeric_pools_perBucket (bucketRows : Nat → List DRow)
    (buckets limit : Nat) :
    ∃ pool : List DRow,
      pool.Perm ((List.range buckets).flatMap
        (fun b => (bucketRows b).take (max ((limit + 4) / 5) 5))) ∧
      pool.Pairwise (fun x y => topCmpLe x y = true) ∧
      getTopNumeric bucketRows buckets limit = pool.take limit := by
  refine ⟨((List.range buckets).flatMap
      (fun b => (bucketRows b).take (perBucket limit))).mergeSort topCmpLe,
    ?_, ?_, rfl⟩
  · exact List.mergeSort_perm _ _
  · exact List.sorted_mergeSort
      (fun a b c => topCmpLe_trans a b c) (fun a b => topCmpLe_total a b) _

/-- Counterexample for C4 as stated: with limit 5 the claimed per-bucket
cut would be ceil(5/5) = 1 row, but the code cuts at max(1, 5) = 5 rows,
so on a bucket holding six rows the two readers return different
results (5 items against 1). -/
theorem getTop_perBucket_counterexample :
    getTopNumeric cex4Rows 1 5 ≠ getTopNumericClaimed cex4Rows 1 5 := by
  intro h
  have h1 : (getTopNumeric cex4Rows 1 5).length = 5 := by
    simp only [getTopNumeric]
    rw [List.length_take, (List.mergeSort_perm _ _).length_eq]
    rfl
  have h2 : (getTopNumericClaimed cex4Rows 1 5).length = 1 := by
    simp only [getTopNumericClaimed]
    rw [List.length_take, (List.mergeSort_perm _ _).length_eq]
    rfl
  rw [h, h2] at h1
  exact absurd h1 (by decide)

/-- Claim C5 (amended): getTop returns at most limit items for both
layouts; for the numeric layout the items are sorted descending by sort
value (the declared order of every registered numeric key) with ties
broken by sortable name ascending; the text layout returns the first
limit rows in storage (partition) order, which need not follow the
declared order — see the counterexample. -/
theorem getTop_limit_and_order (bucketRows : Nat → List DRow)
    (storageRows : List DRow) (buckets limit : Nat) :
    (getTopNumeric bucketRows buckets limit).length ≤ limit ∧
    (getTopNumeric bucketRows buckets limit).Pairwise
      (fun x y => y.valD ≤ x.valD ∧
        (x.valD = y.valD → strLe x.nameD y.nameD = true)) ∧
    (getTopText storageRows limit).length ≤ limit := by
  refine ⟨List.length_take_le _ _, ?_, List.length_take_le _ _⟩
  have hs : (((List.range buckets).flatMap
      (fun b => (bucketRows b).take (perBucket limit))).mergeSort
        topCmpLe).Pairwise (fun x y => topCmpLe x y = true) :=
    List.sorted_mergeSort
      (fun a b c => topCmpLe_trans a b c) (fun a b => topCmpLe_total a b) _
  refine List.Pairwise.imp ?_
    (List.Pairwise.sublist (List.take_sublist _ _) hs)
  intro x y hxy
  simp only [topCmpLe, Bool.or_eq_true, Bool.and_eq_true,
    decide_eq_true_eq, beq_iff_eq] at hxy
  rcases hxy with h | ⟨he, hsle⟩
  · exact ⟨le_of_lt h, fun hh => absurd hh (by omega)⟩
  · exact ⟨le_of_eq he.symm, fun _ => hsle⟩

/-- Counterexample for C5 as stated: for the text layout the storage
hands back partitions in token-hash order; on a table whose storage
order is b before a, getTop returns the rows unsorted, violating the
declared ascending order of the name sort key. -/
theorem getTopText_order_counterexample :
    getTopText cex5Rows 2 = cex5Rows ∧
    ¬ (getTopText cex5Rows 2).Pairwise
      (fun x y => strLe x.nameD y.nameD = true) := by
  refine ⟨rfl, fun h => ?_⟩
  have hstep : strLe (DRow.nameD ⟨"idb", some "B", some "b", none⟩)
      (DRow.nameD ⟨"ida", some "A", some "a", none⟩) = true :=
    List.rel_of_pairwise_cons h (by simp [getTopText, cex5Rows])
  exact absurd hstep (by decide)

/-- Witness for C10: patching status on a concrete one-job registry. -/
theorem updateJob_frame_witness :
    (updateJob
      (fun k => if k = "b" then some (createJobRecord "b" "followers" 0) else none)
      "b" { status := some .building } 3).1 =
      some (applyPatch (createJobRecord "b" "followers" 0)
        { status := some .building } 3) :=
  ((updateJob_frame
    (fun k => if k = "b" then some (createJobRecord "b" "followers" 0) else none)
    "b" { status := some .building } 3).2
    (createJobRecord "b" "followers" 0) (by simp)).1

/-- Claim C6: bucketFor is a pure function of the key and the bucket
count — it returns the same bucket on every invocation and across runs —
and for every bucket count of at least 1 its result lies in the interval
from 0 inclusive to the bucket count exclusive. -/
theorem bucketFor_deterministic_range (key : String) (buckets : Nat)
    (h : 1 ≤ buckets) :
    (∀ key2 buckets2, key2 = key → buckets2 = buckets →
      bucketFor key2 buckets2 = bucketFor key buckets) ∧
    bucketFor key buckets < buckets :=
  ⟨fun _ _ h1 h2 => by rw [h1, h2], Nat.mod_lt _ h⟩

/-- Witness for C6: the bucket of a concrete key fully evaluated. -/
theorem bucketFor_deterministic_range_witness :
    bucketFor "radiohead" 10 = 5 ∧ bucketFor "radiohead" 10 < 10 :=
  ⟨by decide, (bucketFor_deterministic_range "radiohead" 10 (by decide)).2⟩

/-- Claim C8 (amended): an unregistered sort key is rejected before any
I/O, but an oversized limit is not rejected: getTop clamps the limit to
50 and similarArtists clamps it to 25 with Math.min, and the request
proceeds with the clamped value. -/
theorem limit_clamped_not_rejected (by_ : String) (cfg : SortCfg)
    (raw : Nat) (hreg : SORTS by_ = some cfg) :
    getTopValidate by_ raw = .ok (cfg, min raw 50) ∧
    (50 < raw → getTopValidate by_ raw = .ok (cfg, 50)) ∧
    (25 < raw → similarLimit raw = 25) ∧
    (∀ b2, SORTS b2 = none →
      getTopValidate b2 raw = .error "Unsupported sort key") := by
  refine ⟨by simp [getTopValidate, hreg], ?_, ?_, ?_⟩
  · intro hr
    simp [getTopValidate, hreg, Nat.min_eq_right (le_of_lt hr)]
  · intro hr
    simp [similarLimit, Nat.min_eq_right (le_of_lt hr)]
  · intro b2 h2
    simp [getTopValidate, h2]

/-- Witness for C8 at the registered key popularity and the oversized
raw limit 100. -/
theorem limit_clamped_not_rejected_witness :
    getTopValidate "popularity" 100 = .ok (⟨"popularity", .int, .desc⟩, 50) :=
  (limit_clamped_not_rejected "popularity" ⟨"popularity", .int, .desc⟩ 100
    (by simp [SORTS])).2.1 (by decide)

/-- Counterexample for C8 as stated: a getTop request for the registered
key popularity with limit 100 (which exceeds 50) is not rejected — the
pre-I/O phase returns ok with the clamped limit 50 — and a similar
request with limit 30 (which exceeds 25) proceeds with limit 25; there
is no rejection path for an oversized limit at all. -/
theorem limit_rejection_counterexample :
    (getTopValidate "popularity" 100).isOk = true ∧
    similarLimit 30 = 25 := by
  constructor
  · simp [getTopValidate, SORTS, Except.isOk, Except.toBool]
  · decide
theorem rowStep_frame (cfg : SortCfg) (r : SourceRow) (st : ExecSt) :
    (rowStep cfg r st).job.status = st.job.status ∧
    (rowStep cfg r st).job.canceled = st.job.canceled ∧
    (rowStep cfg r st).idx = st.idx + 1 ∧
    (rowStep cfg r st).localIns =
      st.localIns + (if rowInserted cfg r then 1 else 0) ∧
    ∃ mid, (rowStep cfg r st).trace = st.trace ++ mid ∧
      ∀ s ∈ mid, s.status = st.job.status := by
  by_cases hd : rowInserted cfg r
  · by_cases hm : ((st.localIns + 1) % 250 == 0) = true
    · refine ⟨?_, ?_, ?_, ?_, ⟨[applyPatch { st with localIns := st.localIns + 1, idx := st.idx + 1 }.job { inserted := some (st.localIns + 1) } st.clock], ?_, ?_⟩⟩ <;>
        simp [rowStep, execUpd, applyPatch, hd, hm]
    · refine ⟨?_, ?_, ?_, ?_, ⟨[], ?_, ?_⟩⟩ <;>
        simp [rowStep, execUpd, applyPatch, hd, hm]
  · refine ⟨?_, ?_, ?_, ?_, ⟨[], ?_, ?_⟩⟩ <;>
      simp [rowStep, execUpd, applyPatch, hd]

theorem countIns_append (cfg : SortCfg) (l1 l2 : List SourceRow) :
    countIns cfg (l1 ++ l2) = countIns cfg l1 + countIns cfg l2 := by
  simp [countIns, List.filter_append]

theorem countIns_cons (cfg : SortCfg) (r : SourceRow) (l : List SourceRow) :
    countIns cfg (r :: l) =
      (if rowInserted cfg r then 1 else 0) + countIns cfg l := by
  simp only [countIns, List.filter_cons]
  split <;> simp [Nat.add_comm]
/-- runRows when no check in the page observes the flag: no break, the
status and flag are untouched, the counter adds the page's insert count,
the index advances by the page length, and all snapshots taken carry the
current status. -/
theorem runRows_noflag (cfg : SortCfg) (cancelAt : Option Nat) :
    ∀ (rows : List SourceRow) (st : ExecSt),
      (∀ i, st.idx ≤ i → i < st.idx + rows.length → flagSeen cancelAt i = false) →
      (runRows cfg cancelAt rows st).2 = false ∧
      (runRows cfg cancelAt rows st).1.job.status = st.job.status ∧
      (runRows cfg cancelAt rows st).1.job.canceled = st.job.canceled ∧
      (runRows cfg cancelAt rows st).1.localIns = st.localIns + countIns cfg rows ∧
      (runRows cfg cancelAt rows st).1.idx = st.idx + rows.length ∧
      ∃ mid, (runRows cfg cancelAt rows st).1.trace = st.trace ++ mid ∧
        ∀ s ∈ mid, s.status = st.job.status
  | [], st, h => by
    simp [runRows, countIns]
  | r :: rest, st, h => by
    have hflag : flagSeen cancelAt st.idx = false :=
      h st.idx le_rfl (by simp)
    obtain ⟨hs1, hs2, hs3, hs4, mid0, hm0, hm0s⟩ := rowStep_frame cfg r st
    have ih := runRows_noflag cfg cancelAt rest (rowStep cfg r st) (by
      intro i hi1 hi2
      rw [hs3] at hi1 hi2
      refine h i (by omega) ?_
      simp only [List.length_cons]
      omega)
    obtain ⟨ihb, ihs, ihc, ihl, ihi, mid1, hm1, hm1s⟩ := ih
    simp only [runRows, hflag, Bool.false_eq_true, if_false]
    refine ⟨ihb, ihs.trans hs1, ihc.trans hs2, ?_, ?_, ⟨mid0 ++ mid1, ?_, ?_⟩⟩
    · rw [ihl, hs4, countIns_cons]
      omega
    · rw [ihi, hs3]
      simp only [List.length_cons]
      omega
    · rw [hm1, hm0, List.append_assoc]
    · intro s hs
      rcases List.mem_append.mp hs with hmem | hmem
      · exact hm0s s hmem
      · exact (hm1s s hmem).trans hs1

/-- runRows when the flag lands at check index c inside the page: the
scan breaks at that check, the job is transitioned to canceled with the
flag folded in, exactly the rows before index c were processed, and the
canceled snapshot is the last trace entry. -/
theorem runRows_flag (cfg : SortCfg) (c : Nat) :
    ∀ (rows : List SourceRow) (st : ExecSt),
      st.idx ≤ c → c < st.idx + rows.length →
      (runRows cfg (some c) rows st).2 = true ∧
      (runRows cfg (some c) rows st).1.job.status = .canceled ∧
      (runRows cfg (some c) rows st).1.job.canceled = true ∧
      (runRows cfg (some c) rows st).1.localIns =
        st.localIns + countIns cfg (rows.take (c - st.idx)) ∧
      (runRows cfg (some c) rows st).1.idx = c ∧
      ∃ mid, (runRows cfg (some c) rows st).1.trace =
          st.trace ++ mid ++ [(runRows cfg (some c) rows st).1.job] ∧
        ∀ s ∈ mid, s.status = st.job.status
  | [], st, h1, h2 => by
    simp only [List.length_nil, Nat.add_zero] at h2
    omega
  | r :: rest, st, h1, h2 => by
    by_cases hc : st.idx = c
    · have hflag : flagSeen (some c) st.idx = true := by
        simp only [flagSeen, decide_eq_true_eq]
        omega
      simp only [runRows, hflag, if_true]
      refine ⟨by simp, by simp [execUpd, applyPatch],
        by simp [execUpd, applyPatch],
        by simp [execUpd, applyPatch, ← hc, countIns],
        by simp [execUpd, applyPatch, hc],
        ⟨[], by simp [execUpd, applyPatch], by simp⟩⟩
    · have hlt : st.idx < c := lt_of_le_of_ne h1 hc
      have hflag : flagSeen (some c) st.idx = false := by
        simp only [flagSeen, decide_eq_false_iff_not]
        omega
      obtain ⟨hs1, hs2, hs3, hs4, mid0, hm0, hm0s⟩ := rowStep_frame cfg r st
      have ih := runRows_flag cfg c rest (rowStep cfg r st)
        (by rw [hs3]; omega)
        (by rw [hs3]; simp only [List.length_cons] at h2; omega)
      obtain ⟨ihb, ihs, ihc2, ihl, ihi, mid1, hm1, hm1s⟩ := ih
      rw [hs3] at ihl
      simp only [runRows, hflag, Bool.false_eq_true, if_false]
      refine ⟨ihb, ihs, ihc2, ?_, ihi, ⟨mid0 ++ mid1, ?_, ?_⟩⟩
      · rw [ihl, hs4]
        have he1 : (r :: rest).take (c - st.idx) =
            r :: rest.take (c - st.idx - 1) := by
          have he : c - st.idx = (c - st.idx - 1) + 1 := by omega
          rw [he, List.take_succ_cons]
          simp only [Nat.add_sub_cancel]
        have he2 : c - (st.idx + 1) = c - st.idx - 1 := by omega
        rw [he1, countIns_cons, he2]
        omega
      · rw [hm1, hm0]
        simp [List.append_assoc]
      · intro s hs
        rcases List.mem_append.mp hs with hmem | hmem
        · exact hm0s s hmem
        · exact (hm1s s hmem).trans hs1
/-- The page loop when no check observes the flag: the status and flag
are untouched, the counter adds the whole scan's insert count, the index
advances past every row, and all snapshots carry the current status. -/
theorem runPagesGo_noflag (cfg : SortCfg) (cancelAt : Option Nat) :
    ∀ (fuel : Nat) (rows : List SourceRow) (st : ExecSt),
      rows.length < fuel →
      (∀ i, st.idx ≤ i → i < st.idx + rows.length → flagSeen cancelAt i = false) →
      (runPagesGo cfg cancelAt fuel rows st).job.status = st.job.status ∧
      (runPagesGo cfg cancelAt fuel rows st).job.canceled = st.job.canceled ∧
      (runPagesGo cfg cancelAt fuel rows st).localIns =
        st.localIns + countIns cfg rows ∧
      (runPagesGo cfg cancelAt fuel rows st).idx = st.idx + rows.length ∧
      ∃ mid, (runPagesGo cfg cancelAt fuel rows st).trace = st.trace ++ mid ∧
        ∀ s ∈ mid, s.status = st.job.status
  | 0, rows, st, hf, h => absurd hf (by omega)
  | fuel + 1, rows, st, hf, h => by
    have htake : (rows.take 500).length ≤ rows.length := by
      simp only [List.length_take]
      omega
    obtain ⟨hrb, hrs, hrc, hrl, hri, mid0, hm0, hm0s⟩ :=
      runRows_noflag cfg cancelAt (rows.take 500) st
        (fun i hi1 hi2 => h i hi1 (by omega))
    by_cases hrest : rows.drop 500 = []
    · have hall : rows.take 500 = rows := by
        rw [List.drop_eq_nil_iff] at hrest
        exact List.take_of_length_le hrest
      simp only [runPagesGo, hrb, Bool.false_eq_true, if_false]
      rw [if_pos hrest]
      refine ⟨by simpa [execUpd, applyPatch] using hrs,
        by simpa [execUpd, applyPatch] using hrc, ?_, ?_,
        ⟨mid0 ++ [applyPatch (runRows cfg cancelAt (rows.take 500) st).1.job
          { inserted := some (runRows cfg cancelAt (rows.take 500) st).1.localIns }
          (runRows cfg cancelAt (rows.take 500) st).1.clock], ?_, ?_⟩⟩
      · simp only [execUpd]
        rw [hrl, hall]
      · simp only [execUpd]
        rw [hri, hall]
      · simp only [execUpd]
        rw [hm0]
        simp [List.append_assoc]
      · intro s hs
        rcases List.mem_append.mp hs with hmem | hmem
        · exact hm0s s hmem
        · rw [List.mem_singleton] at hmem
          subst hmem
          simpa [applyPatch] using hrs
    · have hlen : 500 < rows.length := by
        rw [List.drop_eq_nil_iff] at hrest
        omega
      have htk : (rows.take 500).length = 500 := by
        simp only [List.length_take]
        omega
      have ih := runPagesGo_noflag cfg cancelAt fuel (rows.drop 500)
        (execUpd (runRows cfg cancelAt (rows.take 500) st).1
          { inserted := some (runRows cfg cancelAt (rows.take 500) st).1.localIns })
        (by
          simp only [List.length_drop]
          omega)
        (by
          intro i hi1 hi2
          simp only [execUpd] at hi1 hi2
          rw [hri, htk] at hi1 hi2
          simp only [List.length_drop] at hi2
          exact h i (by omega) (by omega))
      obtain ⟨ihs, ihc, ihl, ihi, mid1, hm1, hm1s⟩ := ih
      have hsnap : (execUpd (runRows cfg cancelAt (rows.take 500) st).1
          { inserted := some (runRows cfg cancelAt (rows.take 500) st).1.localIns }).job.status
          = st.job.status := by
        simpa [execUpd, applyPatch] using hrs
      simp only [runPagesGo, hrb, Bool.false_eq_true, if_false]
      rw [if_neg hrest]
      refine ⟨ihs.trans hsnap,
        ihc.trans (by simpa [execUpd, applyPatch] using hrc), ?_, ?_,
        ⟨mid0 ++ [applyPatch (runRows cfg cancelAt (rows.take 500) st).1.job
          { inserted := some (runRows cfg cancelAt (rows.take 500) st).1.localIns }
          (runRows cfg cancelAt (rows.take 500) st).1.clock] ++ mid1, ?_, ?_⟩⟩
      · rw [ihl]
        simp only [execUpd]
        rw [hrl, Nat.add_assoc, ← countIns_append, List.take_append_drop]
      · rw [ihi]
        simp only [execUpd]
        rw [hri, htk]
        simp only [List.length_drop]
        omega
      · rw [hm1]
        simp only [execUpd]
        rw [hm0]
        simp [List.append_assoc]
      · intro s hs
        rcases List.mem_append.mp hs with hmem | hmem
        · rcases List.mem_append.mp hmem with hmem2 | hmem2
          · exact hm0s s hmem2
          · rw [List.mem_singleton] at hmem2
            subst hmem2
            simpa [applyPatch] using hrs
        · exact (hm1s s hmem).trans hsnap
/-- The page loop when the flag lands at a check index c inside the
scan: the job ends canceled with the flag folded in, exactly the rows
before index c were processed, and the canceled snapshot closes the
trace, every earlier snapshot carrying the pre-cancel status. -/
theorem runPagesGo_flag (cfg : SortCfg) (c : Nat) :
    ∀ (fuel : Nat) (rows : List SourceRow) (st : ExecSt),
      rows.length < fuel → st.idx ≤ c → c < st.idx + rows.length →
      (runPagesGo cfg (some c) fuel rows st).job.status = .canceled ∧
      (runPagesGo cfg (some c) fuel rows st).job.canceled = true ∧
      (runPagesGo cfg (some c) fuel rows st).localIns =
        st.localIns + countIns cfg (rows.take (c - st.idx)) ∧
      (runPagesGo cfg (some c) fuel rows st).idx = c ∧
      ∃ mid, (runPagesGo cfg (some c) fuel rows st).trace =
          st.trace ++ mid ++ [(runPagesGo cfg (some c) fuel rows st).job] ∧
        ∀ s ∈ mid, s.status = st.job.status
  | 0, rows, st, hf, h1, h2 => absurd hf (by omega)
  | fuel + 1, rows, st, hf, h1, h2 => by
    by_cases hin : c < st.idx + (rows.take 500).length
    · obtain ⟨hrb, hrs, hrc, hrl, hri, mid0, hm0, hm0s⟩ :=
        runRows_flag cfg c (rows.take 500) st h1 hin
      simp only [runPagesGo, hrb, if_true]
      refine ⟨hrs, hrc, ?_, hri, ⟨mid0, hm0, hm0s⟩⟩
      rw [hrl, List.take_take]
      have hmin : min (c - st.idx) 500 = c - st.idx := by
        simp only [List.length_take] at hin
        omega
      rw [hmin]
    · push_neg at hin
      obtain ⟨hrb, hrs, hrc, hrl, hri, mid0, hm0, hm0s⟩ :=
        runRows_noflag cfg (some c) (rows.take 500) st
          (by
            intro i hi1 hi2
            simp only [flagSeen, decide_eq_false_iff_not]
            omega)
      have hlen : 500 < rows.length := by
        simp only [List.length_take] at hin
        omega
      have htk : (rows.take 500).length = 500 := by
        simp only [List.length_take]
        omega
      have hrest : ¬ rows.drop 500 = [] := by
        rw [List.drop_eq_nil_iff]
        omega
      rw [htk] at hin hri
      have ih := runPagesGo_flag cfg c fuel (rows.drop 500)
        (execUpd (runRows cfg (some c) (rows.take 500) st).1
          { inserted := some (runRows cfg (some c) (rows.take 500) st).1.localIns })
        (by
          simp only [List.length_drop]
          omega)
        (by
          simp only [execUpd]
          rw [hri]
          exact hin)
        (by
          simp only [execUpd, List.length_drop]
          rw [hri]
          omega)
      obtain ⟨ihs, ihc, ihl, ihi, mid1, hm1, hm1s⟩ := ih
      have hsnap : (execUpd (runRows cfg (some c) (rows.take 500) st).1
          { inserted := some (runRows cfg (some c) (rows.take 500) st).1.localIns }).job.status
          = st.job.status := by
        simpa [execUpd, applyPatch] using hrs
      simp only [runPagesGo, hrb, Bool.false_eq_true, if_false]
      rw [if_neg hrest]
      refine ⟨ihs, ihc, ?_, ihi, ⟨mid0 ++ [applyPatch
          (runRows cfg (some c) (rows.take 500) st).1.job
          { inserted := some (runRows cfg (some c) (rows.take 500) st).1.localIns }
          (runRows cfg (some c) (rows.take 500) st).1.clock] ++ mid1, ?_, ?_⟩⟩
      · rw [ihl]
        simp only [execUpd]
        rw [hrl, hri]
        have hsplit : c - st.idx = 500 + (c - (st.idx + 500)) := by omega
        rw [hsplit, List.take_add, countIns_append]
        omega
      · rw [hm1]
        simp only [execUpd]
        rw [hm0]
        simp [List.append_assoc]
      · intro s hs
        rcases List.mem_append.mp hs with hmem | hmem
        · rcases List.mem_append.mp hmem with hmem2 | hmem2
          · exact hm0s s hmem2
          · rw [List.mem_singleton] at hmem2
            subst hmem2
            simpa [applyPatch] using hrs
        · exact (hm1s s hmem).trans hsnap
/-- foldFlag only touches the record's canceled flag. -/
theorem foldFlag_facts (st : ExecSt) (cancelAt : Option Nat) :
    (foldFlag st cancelAt).job.status = st.job.status ∧
    (foldFlag st cancelAt).localIns = st.localIns ∧
    (foldFlag st cancelAt).idx = st.idx ∧
    (foldFlag st cancelAt).trace = st.trace ∧
    (foldFlag st cancelAt).clock = st.clock ∧
    (flagSeen cancelAt st.idx = true → (foldFlag st cancelAt).job.canceled = true) ∧
    (st.job.canceled = true → (foldFlag st cancelAt).job.canceled = true) := by
  unfold foldFlag
  split <;> simp_all

/-- finishBuild on an already-canceled record is the identity. -/
theorem finishBuild_canceled (st : ExecSt) (h : st.job.status = .canceled) :
    finishBuild st = st := by
  simp [finishBuild, h]

/-- finishBuild on a running record marks it done with the counter. -/
theorem finishBuild_done (st : ExecSt) (h1 : st.job.status ≠ .canceled)
    (h2 : st.job.status ≠ .error) :
    finishBuild st =
      execUpd st { status := some .done, inserted := some st.localIns,
                   finishedAt := some (some st.clock) } := by
  simp [finishBuild, h1, h2]

/-- The record produced by the synchronous startBuild prefix: status
building, nothing counted yet, and no snapshot is canceled. -/
theorem buildInitSt_facts (key : String) (total : Nat) :
    (buildInitSt key total).job.status = .building ∧
    (buildInitSt key total).job.canceled = false ∧
    (buildInitSt key total).idx = 0 ∧
    (buildInitSt key total).localIns = 0 ∧
    ∀ s ∈ (buildInitSt key total).trace, s.status ≠ .canceled := by
  refine ⟨rfl, rfl, rfl, rfl, ?_⟩
  intro s hs
  simp only [buildInitSt, execUpd, applyPatch, createJobRecord,
    List.append_assoc, List.cons_append, List.nil_append,
    List.mem_cons, List.mem_singleton, List.not_mem_nil, or_false] at hs
  rcases hs with h | h | h <;> subst h <;> simp

/-- Setting an already-set canceled flag leaves the record unchanged. -/
theorem job_set_canceled_self (j : Job) (h : j.canceled = true) :
    { j with canceled := true } = j := by
  cases j
  simp_all
/-- A run whose flag lands at a check index c inside the scan (the
cancel is observed): the job ends canceled with exactly the pre-c rows
processed and the canceled snapshot closing the trace. -/
theorem startBuildRun_canceled_spec (key : String) (cfg : SortCfg)
    (rows : List SourceRow) (c : Nat) (hc : c < rows.length) :
    (startBuildRun key cfg rows (some c)).job.status = .canceled ∧
    (startBuildRun key cfg rows (some c)).job.canceled = true ∧
    (startBuildRun key cfg rows (some c)).idx = c ∧
    (startBuildRun key cfg rows (some c)).localIns = countIns cfg (rows.take c) ∧
    (startBuildRun key cfg rows (some c)).trace.getLast? =
      some (startBuildRun key cfg rows (some c)).job ∧
    ∀ s ∈ (startBuildRun key cfg rows (some c)).trace,
      s.status = .canceled → s = (startBuildRun key cfg rows (some c)).job := by
  obtain ⟨hbs, hbc, hbi, hbl, hbt⟩ := buildInitSt_facts key rows.length
  obtain ⟨ps, pc, pl, pi, mid, hmtr, hms⟩ :=
    runPagesGo_flag cfg c (rows.length + 1) rows (buildInitSt key rows.length)
      (by omega) (by rw [hbi]; omega) (by rw [hbi]; omega)
  obtain ⟨f1, f2, f3, f4, f5, f6, f7⟩ :=
    foldFlag_facts
      (runPagesGo cfg (some c) (rows.length + 1) rows (buildInitSt key rows.length))
      (some c)
  have hfs : (foldFlag
      (runPagesGo cfg (some c) (rows.length + 1) rows (buildInitSt key rows.length))
      (some c)).job.status = .canceled := f1.trans ps
  have hjeq : (foldFlag
      (runPagesGo cfg (some c) (rows.length + 1) rows (buildInitSt key rows.length))
      (some c)).job =
      (runPagesGo cfg (some c) (rows.length + 1) rows (buildInitSt key rows.length)).job := by
    unfold foldFlag
    split
    · exact job_set_canceled_self _ pc
    · rfl
  have hfin := finishBuild_canceled _ hfs
  simp only [startBuildRun, runPages, hfin]
  refine ⟨hfs, f7 pc, f3.trans pi, ?_, ?_, ?_⟩
  · rw [f2, pl, hbl, hbi]
    simp
  · rw [f4, hjeq, hmtr]
    exact List.getLast?_concat _
  · intro s hs hcanc
    rw [f4, hmtr] at hs
    rcases List.mem_append.mp hs with hmem | hmem
    · rcases List.mem_append.mp hmem with hmem2 | hmem2
      · exact absurd hcanc (hbt s hmem2)
      · have := hms s hmem2
        rw [this, hbs] at hcanc
        exact absurd hcanc (by simp)
    · rw [List.mem_singleton] at hmem
      rw [hmem, hjeq]

/-- A run during which no row check observes the flag (no cancel, or the
flag lands only after the last check): the job ends done with the full
insert count. -/
theorem startBuildRun_noflag_spec (key : String) (cfg : SortCfg)
    (rows : List SourceRow) (cancelAt : Option Nat)
    (hnf : ∀ i, i < rows.length → flagSeen cancelAt i = false) :
    (startBuildRun key cfg rows cancelAt).job.status = .done ∧
    (startBuildRun key cfg rows cancelAt).job.inserted = countIns cfg rows := by
  obtain ⟨hbs, hbc, hbi, hbl, hbt⟩ := buildInitSt_facts key rows.length
  obtain ⟨ps, pc, pl, pi, mid, hmtr, hms⟩ :=
    runPagesGo_noflag cfg cancelAt (rows.length + 1) rows (buildInitSt key rows.length)
      (by omega) (by intro i h1 h2; rw [hbi] at h1 h2; exact hnf i (by omega))
  obtain ⟨f1, f2, f3, f4, f5, f6, f7⟩ :=
    foldFlag_facts
      (runPagesGo cfg cancelAt (rows.length + 1) rows (buildInitSt key rows.length))
      cancelAt
  have hfs : (foldFlag
      (runPagesGo cfg cancelAt (rows.length + 1) rows (buildInitSt key rows.length))
      cancelAt).job.status = .building := f1.trans (ps.trans hbs)
  have hfin := finishBuild_done
    (foldFlag
      (runPagesGo cfg cancelAt (rows.length + 1) rows (buildInitSt key rows.length))
      cancelAt)
    (by rw [hfs]; simp) (by rw [hfs]; simp)
  simp only [startBuildRun, runPages, hfin]
  constructor
  · simp [execUpd, applyPatch]
  · simp only [execUpd, applyPatch, Option.getD_some]
    rw [f2, pl, hbl]
    simp
/-- Claim C1: for every registered sort key, when a backfill run started
by startBuild reaches status done, the job's recorded inserted counter
equals the number of source rows whose sort column is non-null for an
int-typed key, and the total number of source rows for a text-typed
key.  The run is quantified over every cancellation schedule that still
lets the job reach done. -/
theorem build_done_inserted (key : String) (cfg : SortCfg)
    (rows : List SourceRow) (cancelAt : Option Nat)
    (hreg : SORTS key = some cfg)
    (hdone : (startBuildRun key cfg rows cancelAt).job.status = .done) :
    (cfg.type = .int →
      (startBuildRun key cfg rows cancelAt).job.inserted =
        (rows.filter (fun r => (colIntVal cfg.column r).isSome)).length) ∧
    (cfg.type = .text →
      (startBuildRun key cfg rows cancelAt).job.inserted = rows.length) := by
  have hmain : (startBuildRun key cfg rows cancelAt).job.inserted =
      countIns cfg rows := by
    cases cancelAt with
    | none =>
      exact (startBuildRun_noflag_spec key cfg rows none (fun i _ => rfl)).2
    | some c =>
      by_cases hclt : c < rows.length
      · have hs := (startBuildRun_canceled_spec key cfg rows c hclt).1
        rw [hs] at hdone
        exact absurd hdone (by simp)
      · push_neg at hclt
        refine (startBuildRun_noflag_spec key cfg rows (some c) ?_).2
        intro i hi
        simp only [flagSeen, decide_eq_false_iff_not]
        omega
  refine ⟨fun ht => ?_, fun ht => ?_⟩
  · rw [hmain]
    have hpred : rowInserted cfg = fun r => (colIntVal cfg.column r).isSome := by
      funext r
      simp [rowInserted, ht]
    simp [countIns, hpred]
  · rw [hmain]
    have hpred : rowInserted cfg = fun _ => true := by
      funext r
      simp [rowInserted, ht]
    simp [countIns, hpred]

/-- Witness for C1: a two-row scan (one null sort column) for the
popularity key runs to done with inserted 1. -/
theorem build_done_inserted_witness :
    (startBuildRun "popularity" ⟨"popularity", ColType.int, SortOrder.desc⟩
      [⟨"a", some "A", some "a", some 7, some 5, none⟩,
       ⟨"b", some "B", some "b", none, none, none⟩] none).job.inserted = 1 := by
  have h := (build_done_inserted "popularity"
    ⟨"popularity", ColType.int, SortOrder.desc⟩
    [⟨"a", some "A", some "a", some 7, some 5, none⟩,
     ⟨"b", some "B", some "b", none, none, none⟩] none
    (by decide) (by decide)).1 rfl
  rw [h]
  decide

/-- Claim C2 (amended): if the cancellation flag of a registered build
is raised while the job is building and at least one source row remains
unchecked (check index c below the row count), then the very next row
check observes it: the job transitions to canceled having processed
exactly the rows before index c, the canceled snapshot is the last
registry update of the run, and no other update ever carries status
canceled — so the inserted counter never changes after the transition.
If instead the flag lands after the last row check, the job completes
done (see the counterexample). -/
theorem build_cancel_one_step (key : String) (cfg : SortCfg)
    (rows : List SourceRow) (c : Nat) (hreg : SORTS key = some cfg)
    (hc : c < rows.length) :
    (startBuildRun key cfg rows (some c)).job.status = .canceled ∧
    (startBuildRun key cfg rows (some c)).job.canceled = true ∧
    (startBuildRun key cfg rows (some c)).idx = c ∧
    (startBuildRun key cfg rows (some c)).localIns = countIns cfg (rows.take c) ∧
    (startBuildRun key cfg rows (some c)).trace.getLast? =
      some (startBuildRun key cfg rows (some c)).job ∧
    ∀ s ∈ (startBuildRun key cfg rows (some c)).trace,
      s.status = .canceled → s = (startBuildRun key cfg rows (some c)).job :=
  startBuildRun_canceled_spec key cfg rows c hc

/-- Witness for C2: cancel raised before check 1 of a two-row popularity
build ends the job canceled. -/
theorem build_cancel_one_step_witness :
    (startBuildRun "popularity" ⟨"popularity", ColType.int, SortOrder.desc⟩
      [⟨"a", some "A", some "a", some 7, some 5, none⟩,
       ⟨"b", some "B", some "b", none, none, none⟩] (some 1)).job.status =
      JStatus.canceled :=
  (build_cancel_one_step "popularity" ⟨"popularity", ColType.int, SortOrder.desc⟩
    [⟨"a", some "A", some "a", some 7, some 5, none⟩,
     ⟨"b", some "B", some "b", none, none, none⟩] 1 (by decide) (by decide)).1

/-- Counterexample for C2 as stated: on an empty scan the cancel flag is
raised while the job is building (the trace holds a building snapshot),
yet no row check remains to observe it — the final status test only
looks at the status field, so the job completes done, never canceled. -/
theorem build_cancel_counterexample :
    (startBuildRun "popularity" ⟨"popularity", ColType.int, SortOrder.desc⟩
      [] (some 0)).job.status = .done ∧
    (startBuildRun "popularity" ⟨"popularity", ColType.int, SortOrder.desc⟩
      [] (some 0)).job.canceled = true ∧
    JStatus.building ∈
      ((startBuildRun "popularity" ⟨"popularity", ColType.int, SortOrder.desc⟩
        [] (some 0)).trace.map Job.status) := by
  decide
